import Mathlib

/-!
Verification development for the GUVI honeypot repository.

The definitions below are a shallow embedding of the repository's Python
sources:

* `intelligence_extractor.py` — the `IntelligenceExtractor` class.  Its
  regular expressions are compiled by hand into executable matchers over
  `List Char`, following Python `re.findall` semantics (left-to-right scan,
  non-overlapping leftmost matches, alternatives tried in written order,
  greedy quantifiers with backtracking).  Python's `\w` is modelled as
  ASCII alphanumeric or an underscore and `\s` as ASCII whitespace; the
  messages of interest are ASCII.
* `session_manager.py` — the `SessionManager` class.  The per-session dict
  is a `Session` structure.  Internal receipt timestamps are ISO-8601
  strings in the source, compared lexicographically, which for a fixed
  format agrees with chronological order; they are modelled as `Nat`.
  Python's `list(set(...))` materialises a set in arbitrary order; it is
  modelled by `List.dedup`, and properties about such lists are stated up
  to membership.
* `main.py` — the body of `chat_endpoint` (one turn of the orchestrator)
  as the pure transition function `chatTurn`; the external classifier and
  the generated reply texts are inputs resp. a `Reply` tag.
-/

namespace Honeypot

/-! ### Character classes for the regular expressions -/

/-- Python regex `\w` (ASCII fragment): letters, digits, underscore. -/
def isWordChar (c : Char) : Bool := c.isAlphanum || c == '_'

/-- Character of the string at position `i`, if any, tested for `\w`. -/
def wordAt (s : List Char) (i : Nat) : Bool :=
  match s.get? i with
  | some c => isWordChar c
  | none => false

/-- Whether the character just before position `i` is a word character. -/
def prevWordAt (s : List Char) (i : Nat) : Bool :=
  match i with
  | 0 => false
  | j + 1 => wordAt s j

/-- Python regex `\b` at position `i`: word/non-word transition. -/
def boundaryAt (s : List Char) (i : Nat) : Bool :=
  prevWordAt s i != wordAt s i

/-- The `len` characters of `s` starting at position `i`. -/
def slice (s : List Char) (i len : Nat) : List Char := (s.drop i).take len

/-- Does `p` occur in `s` starting exactly at position `i`? -/
def startsAt (s : List Char) (i : Nat) (p : List Char) : Bool :=
  slice s i p.length == p

/-- Are there `n` decimal digits at position `i`? -/
def digitsAt (s : List Char) (i n : Nat) : Bool :=
  (slice s i n).length == n && (slice s i n).all Char.isDigit

/-! ### A generic `re.findall` scan -/

/-- One pass of Python `re.findall`: try a match at each position, emit
non-overlapping matches left to right, advancing past each match.  The
fuel argument dominates the number of remaining scan steps. -/
def scanGo (matchAt : List Char → Nat → Option Nat) (s : List Char) :
    Nat → Nat → List (Nat × Nat)
  | 0, _ => []
  | fuel + 1, i =>
    match matchAt s i with
    | some len => (i, len) :: scanGo matchAt s fuel (i + len)
    | none => if i < s.length then scanGo matchAt s fuel (i + 1) else []

/-- All matches of a pattern in `s`, as the matched character lists. -/
def findAll (matchAt : List Char → Nat → Option Nat) (s : List Char) :
    List (List Char) :=
  (scanGo matchAt s (s.length + 1) 0).map fun p => slice s p.1 p.2

/-! ### The phone-number pattern `(?:\+91|91|0)?[6-9]\d{9}\b` -/

/-- The mandatory core `[6-9]\d{9}\b` at position `j`. -/
def phoneCoreAt (s : List Char) (j : Nat) : Bool :=
  (match s.get? j with
   | some c => decide ('6' ≤ c ∧ c ≤ '9')
   | none => false)
  && digitsAt s j 10 && !wordAt s (j + 10)

/-- Match attempt of the phone pattern at position `i`; the optional group
alternatives are tried in the regex's written order. -/
def matchPhoneAt (s : List Char) (i : Nat) : Option Nat :=
  if startsAt s i ['+', '9', '1'] && phoneCoreAt s (i + 3) then some 13
  else if startsAt s i ['9', '1'] && phoneCoreAt s (i + 2) then some 12
  else if startsAt s i ['0'] && phoneCoreAt s (i + 1) then some 11
  else if phoneCoreAt s i then some 10
  else none

/-- Python `re.sub(r'^(\+91|91|0)', '', phone)`: drop one leading country
code or zero, alternatives in the regex's written order. -/
def stripCountryCode : List Char → List Char
  | '+' :: '9' :: '1' :: rest => rest
  | '9' :: '1' :: rest => rest
  | '0' :: rest => rest
  | l => l

/-! ### The bank-account pattern `\b\d{9,18}\b` -/

/-- Greedy attempt of `\d{k}\b` for `k = n, n-1, ..., 9` at position `i`
(the backtracking of the `{9,18}` quantifier). -/
def bankTryLen (s : List Char) (i : Nat) : Nat → Option Nat
  | 0 => none
  | k + 1 =>
    if k + 1 < 9 then none
    else if digitsAt s i (k + 1) && !wordAt s (i + (k + 1)) then some (k + 1)
    else bankTryLen s i k

/-- Match attempt of the bank-account pattern at position `i`. -/
def matchBankAt (s : List Char) (i : Nat) : Option Nat :=
  if boundaryAt s i then bankTryLen s i 18 else none

/-! ### The UPI pattern `\b[\w\.-]+@[\w-]+\b` -/

/-- Characters allowed before the `@`. -/
def isUpiLocalChar (c : Char) : Bool := isWordChar c || c == '.' || c == '-'

/-- Characters allowed after the `@`. -/
def isUpiDomainChar (c : Char) : Bool := isWordChar c || c == '-'

/-- Greedy backtracking of `[\w-]+\b` after the `@`: longest `k ≤ b` with a
word boundary after it, `k ≥ 1`. -/
def upiDomainBack (s : List Char) (j : Nat) : Nat → Option Nat
  | 0 => none
  | k + 1 => if boundaryAt s (j + (k + 1)) then some (k + 1) else upiDomainBack s j k

/-- Match attempt of the UPI pattern at position `i`.  The greedy run of
`[\w\.-]+` must be maximal for the literal `@` to follow (the class does
not contain `@`), so no backtracking arises before the `@`. -/
def matchUpiAt (s : List Char) (i : Nat) : Option Nat :=
  let a := ((s.drop i).takeWhile isUpiLocalChar).length
  if boundaryAt s i && decide (1 ≤ a) && (s.get? (i + a) == some '@') then
    let b := ((s.drop (i + a + 1)).takeWhile isUpiDomainChar).length
    match upiDomainBack s (i + a + 1) b with
    | some k => some (a + 1 + k)
    | none => none
  else none

/-! ### The URL pattern `https?://[^\s]+|www\.[^\s]+|bit\.ly/[^\s]+|tinyurl\.com/[^\s]+` -/

/-- Length of the maximal run of non-whitespace characters at `j`. -/
def nonSpaceLen (s : List Char) (j : Nat) : Nat :=
  ((s.drop j).takeWhile (fun c => !c.isWhitespace)).length

/-- Finish a URL alternative: after a literal of length `plen`, `[^\s]+`
takes the maximal non-empty run of non-whitespace characters. -/
def urlTail (s : List Char) (i plen : Nat) : Option Nat :=
  let r := nonSpaceLen s (i + plen)
  if 1 ≤ r then some (plen + r) else none

/-- Match attempt of the URL pattern at position `i`, alternatives in the
regex's written order (`https` before `http` by greediness of `s?`). -/
def matchUrlAt (s : List Char) (i : Nat) : Option Nat :=
  if startsAt s i "https://".toList then urlTail s i 8
  else if startsAt s i "http://".toList then urlTail s i 7
  else if startsAt s i "www.".toList then urlTail s i 4
  else if startsAt s i "bit.ly/".toList then urlTail s i 7
  else if startsAt s i "tinyurl.com/".toList then urlTail s i 12
  else none

/-! ### Substring containment (Python `in` on strings) -/

/-- Does `s` begin with `p`? -/
def listStartsWith : List Char → List Char → Bool
  | _, [] => true
  | [], _ :: _ => false
  | c :: cs, p :: ps => c == p && listStartsWith cs ps

/-- Does `pat` occur contiguously anywhere in `l`?  (Python `pat in l`.) -/
def hasSub (pat : List Char) : List Char → Bool
  | [] => listStartsWith [] pat
  | c :: rest => listStartsWith (c :: rest) pat || hasSub pat rest

/-- ASCII lowercasing of a character list (Python `str.lower`). -/
def toLowerList (l : List Char) : List Char := l.map Char.toLower

/-! ### The intelligence bundle and `IntelligenceExtractor` -/

/-- The five-field intelligence dict built by `extract_from_message`. -/
structure Intelligence where
  upi_ids : List String
  phone_numbers : List String
  bank_accounts : List String
  phishing_links : List String
  suspicious_keywords : List String
  deriving DecidableEq

/-- The five dict keys of an intelligence bundle. -/
inductive IntelKey
  | upi_ids
  | phone_numbers
  | bank_accounts
  | phishing_links
  | suspicious_keywords
  deriving DecidableEq

/-- Field lookup of a bundle by key (the Python `intelligence[key]`). -/
def Intelligence.get (b : Intelligence) : IntelKey → List String
  | .upi_ids => b.upi_ids
  | .phone_numbers => b.phone_numbers
  | .bank_accounts => b.bank_accounts
  | .phishing_links => b.phishing_links
  | .suspicious_keywords => b.suspicious_keywords

/-- The empty bundle every fresh session starts with. -/
def emptyIntel : Intelligence := ⟨[], [], [], [], []⟩

/-- The allow-list used to filter UPI-shaped tokens, from the source's
list comprehension over `['paytm', 'phonepe', 'gpay', 'ybl', 'okaxis',
'okhdfcbank', 'oksbi', 'okicici']`. -/
def upiProviders : List (List Char) :=
  ["paytm", "phonepe", "gpay", "ybl", "okaxis", "okhdfcbank", "oksbi",
   "okicici"].map String.toList

/-- The fixed vocabulary `self.suspicious_keywords` of the extractor. -/
def suspiciousVocab : List String :=
  ["kyc", "update", "verify", "account", "blocked", "suspended",
   "otp", "cvv", "pin", "password", "aadhaar", "pan",
   "prize", "lottery", "won", "congratulations",
   "urgent", "immediately", "expire", "cancel",
   "refund", "tax", "cashback", "reward",
   "click here", "download", "apk", "install",
   "bank", "axis", "hdfc", "sbi", "icici", "paytm", "phonepe", "googlepay",
   "police", "arrest", "court", "legal action",
   "loan approved", "credit card", "offer",
   "delivery", "courier", "parcel", "custom duty"]

/-- The cleaned phone candidates of a message: every phone-pattern match,
country code stripped, kept when exactly 10 digits remain (the
`cleaned_phones` list of `extract_from_message`). -/
def cleanedPhones (chars : List Char) : List (List Char) :=
  ((findAll matchPhoneAt chars).map stripCountryCode).filter
    fun p => p.length == 10

/-- Embedding of `IntelligenceExtractor.extract_from_message`.  Python's
`list(set(...))` materialisations are modelled by `List.dedup`; their
element order is arbitrary in the source. -/
def extractFromMessage (message : String) : Intelligence :=
  let chars := message.toList
  let lower := toLowerList chars
  let upiKept := (findAll matchUpiAt chars).filter
    fun u => upiProviders.any fun b => hasSub b (toLowerList u)
  let cleaned := cleanedPhones chars
  let accounts := (findAll matchBankAt chars).filter
    fun a => !cleaned.contains a && decide (11 ≤ a.length)
  let links := findAll matchUrlAt chars
  let kws := suspiciousVocab.filter fun kw => hasSub kw.toList lower
  ⟨upiKept.dedup.map String.mk,
   cleaned.dedup.map String.mk,
   accounts.dedup.map String.mk,
   links.dedup.map String.mk,
   kws.dedup⟩

/-- Per-field set union of two bundles, the loop body shared by
`SessionManager.update_intelligence` and the aggregation of
`extract_from_conversation` (`set(cur) | set(new)`, materialised). -/
def mergeIntel (cur new : Intelligence) : Intelligence :=
  ⟨(cur.upi_ids ++ new.upi_ids).dedup,
   (cur.phone_numbers ++ new.phone_numbers).dedup,
   (cur.bank_accounts ++ new.bank_accounts).dedup,
   (cur.phishing_links ++ new.phishing_links).dedup,
   (cur.suspicious_keywords ++ new.suspicious_keywords).dedup⟩

/-- Embedding of `IntelligenceExtractor.extract_from_conversation`, applied to the
texts of the messages (the source reads only `msg.get("text", "")`). -/
def extractFromConversation (texts : List String) : Intelligence :=
  texts.foldl (fun acc t => mergeIntel acc (extractFromMessage t)) emptyIntel

/-- Embedding of `IntelligenceExtractor.is_high_value_intelligence`. -/
def isHighValueIntelligence (b : Intelligence) : Bool :=
  let has_upi := decide (0 < b.upi_ids.length)
  let has_phone := decide (0 < b.phone_numbers.length)
  let has_link := decide (0 < b.phishing_links.length)
  let has_bank := decide (0 < b.bank_accounts.length)
  has_upi || (has_phone && has_link) || has_bank

/-! ### The session store (`session_manager.py`)

Internal receipt timestamps (`datetime.utcnow().isoformat()` strings,
compared lexicographically in the source) are modelled as `Nat`. -/

/-- One entry of a session's message log. -/
structure Msg where
  sender : String
  text : String
  timestamp : Int
  datetime : Nat
  deriving DecidableEq

/-- The per-session dict created by `SessionManager.get_session`. -/
structure Session where
  session_id : String
  created_at : Nat
  messages : List Msg
  scam_detected : Bool
  scam_confidence : ℚ
  agent_engaged : Bool
  extracted_intelligence : Intelligence
  callback_sent : Bool
  should_conclude : Bool
  scam_detected_at : Option Nat
  agent_engaged_at : Option Nat
  callback_sent_at : Option Nat
  deriving DecidableEq

/-- The fresh session `get_session` creates for an unseen identifier. -/
def newSession (sid : String) (now : Nat) : Session :=
  ⟨sid, now, [], false, 0, false, emptyIntel, false, false, none, none, none⟩

/-- Embedding of `SessionManager.add_message`: append one message, assigning the
internal receipt timestamp `recvAt`; no other field changes. -/
def addMessage (s : Session) (sender text : String) (timestamp : Int)
    (recvAt : Nat) : Session :=
  { s with messages := s.messages ++ [⟨sender, text, timestamp, recvAt⟩] }

/-- Embedding of `SessionManager.mark_scam_detected`. -/
def markScamDetected (s : Session) (confidence : ℚ) (now : Nat) : Session :=
  { s with scam_detected := true, scam_confidence := confidence,
           scam_detected_at := some now }

/-- Embedding of `SessionManager.engage_agent`. -/
def engageAgent (s : Session) (now : Nat) : Session :=
  { s with agent_engaged := true, agent_engaged_at := some now }

/-- Embedding of `SessionManager.update_intelligence`: per-field set union of the new
bundle into the session's bundle. -/
def updateIntelligence (s : Session) (new : Intelligence) : Session :=
  { s with extracted_intelligence := mergeIntel s.extracted_intelligence new }

/-- Embedding of `SessionManager.mark_callback_sent`. -/
def markCallbackSent (s : Session) (now : Nat) : Session :=
  { s with callback_sent := true, callback_sent_at := some now }

/-- Embedding of `SessionManager.should_conclude_session`: the decision together with
the session it leaves behind (the source mutates the session dict's
`should_conclude` flag in place when the decision is positive). -/
def shouldConcludeSession (s : Session) : Bool × Session :=
  if s.should_conclude then (true, s)
  else if !s.agent_engaged then (false, s)
  else
    let total := s.messages.length
    let engagement : Nat :=
      match s.agent_engaged_at with
      | some t => (s.messages.filter fun m => decide (t ≤ m.datetime)).length
      | none => total
    if engagement < 8 then (false, s)
    else
      let hv := isHighValueIntelligence s.extracted_intelligence
      let ceiling := decide (15 ≤ total)
      if hv || ceiling then (true, { s with should_conclude := true })
      else (false, s)

/-- A session-store operation on an existing session, with the internal
timestamps the store would assign (fetching an existing session via
`get_session` is the identity and is omitted). -/
inductive StoreOp
  | addMsg (sender text : String) (timestamp : Int) (recvAt : Nat)
  | markDetected (confidence : ℚ) (now : Nat)
  | engage (now : Nat)
  | updateIntel (b : Intelligence)
  | markCallback (now : Nat)
  | evalConclude
  deriving DecidableEq

/-- The effect of one store operation on a session. -/
def applyOp (s : Session) : StoreOp → Session
  | .addMsg sender text timestamp recvAt => addMessage s sender text timestamp recvAt
  | .markDetected confidence now => markScamDetected s confidence now
  | .engage now => engageAgent s now
  | .updateIntel b => updateIntelligence s b
  | .markCallback now => markCallbackSent s now
  | .evalConclude => (shouldConcludeSession s).snd

/-- The effect of a sequence of store operations, first to last. -/
def applyOps (ops : List StoreOp) (s : Session) : Session :=
  ops.foldl applyOp s

/-! ### One turn of the orchestrator (`chat_endpoint` in `main.py`) -/

/-- Which of the generated reply kinds the endpoint emits. -/
inductive Reply
  | initial
  | neutral
  | ongoing
  | final
  | fallback
  deriving DecidableEq

/-- What one call of `chat_endpoint` leaves behind: the mutated session,
the kind of reply emitted, and whether the final report callback was
scheduled (`asyncio.create_task(send_final_callback(...))`). -/
structure TurnResult where
  session : Session
  reply : Reply
  callbackScheduled : Bool
  deriving DecidableEq

/-- The session-relevant body of `chat_endpoint` for one inbound message.
The external classifier's answer is the pair `(is_scam, confidence)`;
`recvAt` and `engageAt` are the internal timestamps assigned by
`add_message` resp. `engage_agent` during the turn. -/
def chatTurn (s : Session) (sender text : String) (timestamp : Int)
    (recvAt engageAt : Nat) (is_scam : Bool) (confidence : ℚ) : TurnResult :=
  let s1 := addMessage s sender text timestamp recvAt
  if s1.scam_detected && s1.agent_engaged then
    let r := shouldConcludeSession s1
    if r.fst then ⟨r.snd, Reply.final, true⟩
    else ⟨updateIntelligence r.snd (extractFromMessage text), Reply.ongoing, false⟩
  else if !s1.scam_detected then
    if is_scam && decide ((7 : ℚ) / 10 < confidence) then
      ⟨engageAgent (markScamDetected s1 confidence recvAt) engageAt,
       Reply.initial, false⟩
    else ⟨s1, Reply.neutral, false⟩
  else ⟨s1, Reply.fallback, false⟩

/-! ### Helper lemmas about the conclusion policy -/

/-- The session left behind by `should_conclude_session` is the input
session, possibly with the `should_conclude` flag switched on. -/
lemma shouldConcludeSession_snd_cases (s : Session) :
    (shouldConcludeSession s).snd = s ∨
      (shouldConcludeSession s).snd = { s with should_conclude := true } := by
  unfold shouldConcludeSession
  repeat' split <;> try simp

/-- A positive conclusion decision persists the flag. -/
lemma shouldConcludeSession_sets_flag {s : Session}
    (h : (shouldConcludeSession s).fst = true) :
    (shouldConcludeSession s).snd.should_conclude = true := by
  unfold shouldConcludeSession at h ⊢
  repeat' split at h <;> try simp_all
  rw [if_neg (by omega)]

/-- A session whose flag is already set always concludes. -/
lemma shouldConcludeSession_of_flag {s : Session}
    (h : s.should_conclude = true) : (shouldConcludeSession s).fst = true := by
  simp [shouldConcludeSession, h]

/-- The call `should_conclude_session` mutates nothing but the flag. -/
lemma shouldConcludeSession_preserves_intel (s : Session) :
    (shouldConcludeSession s).snd.extracted_intelligence =
      s.extracted_intelligence := by
  rcases shouldConcludeSession_snd_cases s with h | h <;> rw [h]

/-- No store operation resets a set `should_conclude` flag. -/
lemma applyOp_keeps_flag {s : Session} (op : StoreOp)
    (h : s.should_conclude = true) : (applyOp s op).should_conclude = true := by
  cases op <;>
    simp [applyOp, addMessage, markScamDetected, engageAgent,
      updateIntelligence, markCallbackSent, h]
  · rcases shouldConcludeSession_snd_cases s with h2 | h2 <;>
      (rw [h2]; try simp [h])

/-- No sequence of store operations resets a set flag. -/
lemma applyOps_keeps_flag {s : Session} (ops : List StoreOp)
    (h : s.should_conclude = true) :
    (applyOps ops s).should_conclude = true := by
  induction ops generalizing s with
  | nil => simpa [applyOps]
  | cons op rest ih =>
    have := applyOp_keeps_flag (s := s) op h
    simpa [applyOps, List.foldl_cons] using ih this

/-! ### Claim theorems about the conclusion policy -/

/-- C1.  Once `should_conclude_session` has returned true (persisting the
session's `should_conclude` flag), every later call returns true again,
whatever store operations — message appends, detection or engagement
marks, intelligence merges, callback marks, further policy evaluations —
happen in between: no session-store operation resets the flag. -/
theorem conclude_sticky (s : Session) (ops : List StoreOp)
    (h : (shouldConcludeSession s).fst = true) :
    (applyOps ops (shouldConcludeSession s).snd).should_conclude = true ∧
      (shouldConcludeSession
        (applyOps ops (shouldConcludeSession s).snd)).fst = true := by
  have h1 : (shouldConcludeSession s).snd.should_conclude = true :=
    shouldConcludeSession_sets_flag h
  have h2 := applyOps_keeps_flag (s := (shouldConcludeSession s).snd) ops h1
  exact ⟨h2, shouldConcludeSession_of_flag h2⟩

/-- A concluded-looking engaged demo session: 15 messages, all received
after the engagement timestamp, empty bundle. -/
def demoEngaged : Session :=
  { newSession "sess-1" 0 with
      scam_detected := true, scam_confidence := 9 / 10,
      agent_engaged := true, agent_engaged_at := some 10,
      messages := (List.range 15).map fun i => ⟨"scammer", "hello", 0, 10 + i⟩ }

/-- Witness for C1 at a concrete session and operation sequence. -/
theorem conclude_sticky_witness :
    (shouldConcludeSession demoEngaged).fst = true ∧
      (applyOps [StoreOp.addMsg "scammer" "bye" 99 99,
          StoreOp.updateIntel emptyIntel, StoreOp.evalConclude]
        (shouldConcludeSession demoEngaged).snd).should_conclude = true ∧
      (shouldConcludeSession
        (applyOps [StoreOp.addMsg "scammer" "bye" 99 99,
            StoreOp.updateIntel emptyIntel, StoreOp.evalConclude]
          (shouldConcludeSession demoEngaged).snd)).fst = true :=
  ⟨by decide,
   (conclude_sticky demoEngaged _ (by decide)).1,
   (conclude_sticky demoEngaged _ (by decide)).2⟩

/-- C2.  An engaged session whose flag is not yet set and that has fewer
than 8 messages received at or after the engagement timestamp never
concludes, whatever its intelligence bundle or total message count. -/
theorem engagement_floor (s : Session) (t : Nat)
    (hflag : s.should_conclude = false)
    (heng : s.agent_engaged = true)
    (hat : s.agent_engaged_at = some t)
    (hcount : (s.messages.filter fun m => decide (t ≤ m.datetime)).length < 8) :
    (shouldConcludeSession s).fst = false := by
  simp [shouldConcludeSession, hflag, heng, hat, hcount]

/-- Demo session for C2: high-value bundle, 15 total messages, but all
received before the engagement timestamp. -/
def demoPreEngaged : Session :=
  { newSession "sess-2" 0 with
      scam_detected := true, agent_engaged := true, agent_engaged_at := some 100,
      extracted_intelligence := ⟨["9876543210@paytm"], [], [], [], []⟩,
      messages := (List.range 15).map fun i => ⟨"scammer", "hello", 0, i⟩ }

/-- Witness for C2: despite a high-value bundle and 15 total messages,
a session with no post-engagement messages does not conclude. -/
theorem engagement_floor_witness :
    demoPreEngaged.should_conclude = false ∧
      demoPreEngaged.agent_engaged = true ∧
      demoPreEngaged.agent_engaged_at = some 100 ∧
      (demoPreEngaged.messages.filter
        fun m => decide (100 ≤ m.datetime)).length < 8 ∧
      isHighValueIntelligence demoPreEngaged.extracted_intelligence = true ∧
      15 ≤ demoPreEngaged.messages.length ∧
      (shouldConcludeSession demoPreEngaged).fst = false :=
  ⟨by decide, by decide, by decide, by decide, by decide, by decide,
   engagement_floor demoPreEngaged 100 (by decide) (by decide) (by decide)
     (by decide)⟩

/-- C3.  An engaged session with at least 8 messages received at or after
the engagement timestamp and at least 15 total messages always concludes,
even with an empty intelligence bundle. -/
theorem hard_ceiling (s : Session) (t : Nat)
    (heng : s.agent_engaged = true)
    (hat : s.agent_engaged_at = some t)
    (hcount : 8 ≤ (s.messages.filter fun m => decide (t ≤ m.datetime)).length)
    (htotal : 15 ≤ s.messages.length) :
    (shouldConcludeSession s).fst = true := by
  cases hflag : s.should_conclude with
  | true => exact shouldConcludeSession_of_flag hflag
  | false =>
    simp [shouldConcludeSession, hflag, heng, hat, Nat.not_lt.mpr hcount,
      htotal]

/-- Witness for C3: `demoEngaged` has an empty bundle, 15 messages, all
post-engagement, and concludes. -/
theorem hard_ceiling_witness :
    demoEngaged.agent_engaged = true ∧
      demoEngaged.agent_engaged_at = some 10 ∧
      8 ≤ (demoEngaged.messages.filter
        fun m => decide (10 ≤ m.datetime)).length ∧
      15 ≤ demoEngaged.messages.length ∧
      demoEngaged.extracted_intelligence = emptyIntel ∧
      (shouldConcludeSession demoEngaged).fst = true :=
  ⟨by decide, by decide, by decide, by decide, by decide,
   hard_ceiling demoEngaged 10 (by decide) (by decide) (by decide)
     (by decide)⟩

/-! ### Claim theorems about the orchestrator turn -/

/-- C4.  On a not-yet-detected session, a classifier verdict of
`is_scam` with confidence strictly above 0.7 makes the turn record the
detection (with its confidence), engage the agent and emit the initial
engagement reply; any other verdict leaves every session field except the
appended message unchanged and emits the neutral reply. -/
theorem detection_threshold (s : Session) (sender text : String)
    (timestamp : Int) (recvAt engageAt : Nat) (is_scam : Bool)
    (confidence : ℚ) (h : s.scam_detected = false) :
    (is_scam = true → (7 : ℚ) / 10 < confidence →
      (chatTurn s sender text timestamp recvAt engageAt is_scam
          confidence).session.scam_detected = true ∧
      (chatTurn s sender text timestamp recvAt engageAt is_scam
          confidence).session.scam_confidence = confidence ∧
      (chatTurn s sender text timestamp recvAt engageAt is_scam
          confidence).session.agent_engaged = true ∧
      (chatTurn s sender text timestamp recvAt engageAt is_scam
          confidence).reply = Reply.initial) ∧
    (is_scam = false ∨ confidence ≤ (7 : ℚ) / 10 →
      (chatTurn s sender text timestamp recvAt engageAt is_scam
          confidence).reply = Reply.neutral ∧
      (chatTurn s sender text timestamp recvAt engageAt is_scam
          confidence).session =
        addMessage s sender text timestamp recvAt ∧
      (chatTurn s sender text timestamp recvAt engageAt is_scam
          confidence).session.messages =
        s.messages ++ [⟨sender, text, timestamp, recvAt⟩] ∧
      (chatTurn s sender text timestamp recvAt engageAt is_scam
          confidence).session.scam_detected = s.scam_detected ∧
      (chatTurn s sender text timestamp recvAt engageAt is_scam
          confidence).session.scam_confidence = s.scam_confidence ∧
      (chatTurn s sender text timestamp recvAt engageAt is_scam
          confidence).session.agent_engaged = s.agent_engaged ∧
      (chatTurn s sender text timestamp recvAt engageAt is_scam
          confidence).session.extracted_intelligence =
        s.extracted_intelligence ∧
      (chatTurn s sender text timestamp recvAt engageAt is_scam
          confidence).session.should_conclude = s.should_conclude) := by
  constructor
  · intro h1 h2
    simp [chatTurn, addMessage, markScamDetected, engageAgent, h, h1, h2]
  · intro h1
    have hc : (is_scam && decide ((7 : ℚ) / 10 < confidence)) = false := by
      rcases h1 with h1 | h1
      · simp [h1]
      · simp [not_lt.mpr h1]
    simp [chatTurn, addMessage, hc, h]

/-- Witness for C4 at confidence 0.85 (engages) and 0.65 (stays neutral),
from a fresh session. -/
theorem detection_threshold_witness :
    (newSession "sess-4" 0).scam_detected = false ∧
      (chatTurn (newSession "sess-4" 0) "scammer" "urgent kyc" 1 1 2 true
        (17 / 20)).session.scam_detected = true ∧
      (chatTurn (newSession "sess-4" 0) "scammer" "urgent kyc" 1 1 2 true
        (17 / 20)).session.scam_confidence = 17 / 20 ∧
      (chatTurn (newSession "sess-4" 0) "scammer" "urgent kyc" 1 1 2 true
        (17 / 20)).session.agent_engaged = true ∧
      (chatTurn (newSession "sess-4" 0) "scammer" "urgent kyc" 1 1 2 true
        (17 / 20)).reply = Reply.initial ∧
      (chatTurn (newSession "sess-4" 0) "scammer" "hello sir" 1 1 2 true
        (13 / 20)).reply = Reply.neutral ∧
      (chatTurn (newSession "sess-4" 0) "scammer" "hello sir" 1 1 2 true
        (13 / 20)).session =
        addMessage (newSession "sess-4" 0) "scammer" "hello sir" 1 1 := by
  refine ⟨by decide, ?_, ?_, ?_, ?_, ?_, ?_⟩
  · exact ((detection_threshold _ _ _ _ _ _ _ _ (by decide)).1 rfl
      (by norm_num)).1
  · exact ((detection_threshold _ _ _ _ _ _ _ _ (by decide)).1 rfl
      (by norm_num)).2.1
  · exact ((detection_threshold _ _ _ _ _ _ _ _ (by decide)).1 rfl
      (by norm_num)).2.2.1
  · exact ((detection_threshold _ _ _ _ _ _ _ _ (by decide)).1 rfl
      (by norm_num)).2.2.2
  · exact ((detection_threshold _ _ _ _ _ _ _ _ (by decide)).2
      (Or.inr (by norm_num))).1
  · exact ((detection_threshold _ _ _ _ _ _ _ _ (by decide)).2
      (Or.inr (by norm_num))).2.1

/-- C10.  On the turn in which the conclusion policy fires for a detected,
engaged session, the orchestrator emits the final reply and schedules the
report callback without running the extractor on the concluding inbound
message: the session's accumulated bundle is unchanged by that turn. -/
theorem concluding_turn_frame (s : Session) (sender text : String)
    (timestamp : Int) (recvAt engageAt : Nat) (is_scam : Bool)
    (confidence : ℚ)
    (hd : s.scam_detected = true) (he : s.agent_engaged = true)
    (hc : (shouldConcludeSession
      (addMessage s sender text timestamp recvAt)).fst = true) :
    (chatTurn s sender text timestamp recvAt engageAt is_scam
        confidence).reply = Reply.final ∧
      (chatTurn s sender text timestamp recvAt engageAt is_scam
        confidence).callbackScheduled = true ∧
      (chatTurn s sender text timestamp recvAt engageAt is_scam
        confidence).session.extracted_intelligence =
        s.extracted_intelligence := by
  have hd1 : (addMessage s sender text timestamp recvAt).scam_detected = true := hd
  have he1 : (addMessage s sender text timestamp recvAt).agent_engaged = true := he
  have hintel :=
    shouldConcludeSession_preserves_intel
      (addMessage s sender text timestamp recvAt)
  simp only [chatTurn, hd1, he1, Bool.and_self, if_true, hc, if_pos]
  exact ⟨trivial, trivial, hintel⟩

/-- Demo session for C10: engaged, 14 prior messages, empty bundle; the
15th inbound message triggers conclusion and carries a UPI handle. -/
def demoConcluding : Session :=
  { newSession "sess-10" 0 with
      scam_detected := true, agent_engaged := true, agent_engaged_at := some 10,
      messages := (List.range 14).map fun i => ⟨"scammer", "hello", 0, 10 + i⟩ }

/-- Witness for C10: the concluding message contains a payment handle, yet
the session's bundle stays empty on the concluding turn. -/
theorem concluding_turn_frame_witness :
    demoConcluding.scam_detected = true ∧
      (shouldConcludeSession (addMessage demoConcluding "scammer"
        "pay 9876543210@paytm" 99 99)).fst = true ∧
      (chatTurn demoConcluding "scammer" "pay 9876543210@paytm" 99 99 100
        false 0).reply = Reply.final ∧
      (chatTurn demoConcluding "scammer" "pay 9876543210@paytm" 99 99 100
        false 0).callbackScheduled = true ∧
      (chatTurn demoConcluding "scammer" "pay 9876543210@paytm" 99 99 100
        false 0).session.extracted_intelligence = emptyIntel :=
  ⟨by decide, by decide,
   (concluding_turn_frame demoConcluding _ _ _ _ _ _ _ (by decide) (by decide)
     (by decide)).1,
   (concluding_turn_frame demoConcluding _ _ _ _ _ _ _ (by decide) (by decide)
     (by decide)).2.1,
   (concluding_turn_frame demoConcluding _ _ _ _ _ _ _ (by decide) (by decide)
     (by decide)).2.2⟩

/-! ### Claim theorem about the value predicate -/

/-- C5.  A bundle is high value exactly when it holds a payment handle, or
both a phone number and a link, or a bank account; in particular a bundle
whose only entry is one payment handle is high value. -/
theorem high_value_iff :
    (∀ b : Intelligence, isHighValueIntelligence b = true ↔
      (∃ u, u ∈ b.upi_ids) ∨
        ((∃ p, p ∈ b.phone_numbers) ∧ (∃ l, l ∈ b.phishing_links)) ∨
        (∃ a, a ∈ b.bank_accounts)) ∧
    ∀ h : String, isHighValueIntelligence ⟨[h], [], [], [], []⟩ = true := by
  constructor
  · intro b
    simp [isHighValueIntelligence, List.length_pos_iff_exists_mem]
    tauto
  · intro h
    simp [isHighValueIntelligence]

/-! ### Helper lemmas about the extraction scan -/

/-- Everything the scan emits is a match of the pattern. -/
lemma scanGo_mem {matchAt : List Char → Nat → Option Nat} {s : List Char} :
    ∀ {fuel i : Nat} {pr : Nat × Nat}, pr ∈ scanGo matchAt s fuel i →
      matchAt s pr.1 = some pr.2 := by
  intro fuel
  induction fuel with
  | zero => intro i pr h; simp [scanGo] at h
  | succ n ih =>
    intro i pr h
    simp only [scanGo] at h
    cases hm : matchAt s i with
    | some len =>
      rw [hm] at h
      rcases List.mem_cons.mp h with h1 | h1
      · cases h1; exact hm
      · exact ih h1
    | none =>
      rw [hm] at h
      by_cases hi : i < s.length
      · rw [if_pos hi] at h; exact ih h
      · rw [if_neg hi] at h; simp at h

/-- Every extracted token is the slice of some pattern match. -/
lemma findAll_mem {matchAt : List Char → Nat → Option Nat} {s m : List Char}
    (h : m ∈ findAll matchAt s) :
    ∃ i len, matchAt s i = some len ∧ m = slice s i len := by
  rcases List.mem_map.mp h with ⟨pr, hpr, heq⟩
  exact ⟨pr.1, pr.2, scanGo_mem hpr, heq.symm⟩

/-- A slice of a sum of lengths splits at the corresponding position. -/
lemma slice_append (s : List Char) (i a b : Nat) :
    slice s i (a + b) = slice s i a ++ slice s (i + a) b := by
  unfold slice
  rw [List.take_add, List.drop_drop]

/-- Split a boolean conjunction hypothesis. -/
lemma band_true {a b : Bool} (h : (a && b) = true) : a = true ∧ b = true := by
  simpa using h

/-- A successful `startsAt` pins down the slice of the literal's length. -/
lemma startsAt_eq {s p : List Char} {i : Nat} (h : startsAt s i p = true) :
    slice s i p.length = p := by
  simpa [startsAt] using h

/-- What a successful `digitsAt` says about the slice. -/
lemma digitsAt_eq {s : List Char} {i n : Nat} (h : digitsAt s i n = true) :
    (slice s i n).length = n ∧ (slice s i n).all Char.isDigit = true := by
  have h' := h
  unfold digitsAt at h'
  rcases band_true h' with ⟨h1, h2⟩
  exact ⟨by simpa using h1, h2⟩

/-- The slice matched by the phone core `[6-9]\d{9}\b` is ten digits whose
first digit is between 6 and 9. -/
lemma phoneCore_slice {s : List Char} {j : Nat} (h : phoneCoreAt s j = true) :
    (slice s j 10).length = 10 ∧ (slice s j 10).all Char.isDigit = true ∧
      ∃ c rest, slice s j 10 = c :: rest ∧ '6' ≤ c ∧ c ≤ '9' := by
  unfold phoneCoreAt at h
  rcases band_true h with ⟨h12, _⟩
  rcases band_true h12 with ⟨h1, h2⟩
  rcases digitsAt_eq h2 with ⟨hlen, hdig⟩
  refine ⟨hlen, hdig, ?_⟩
  cases hget : s.get? j with
  | none => rw [hget] at h1; simp at h1
  | some c =>
    rw [hget] at h1
    have hc : '6' ≤ c ∧ c ≤ '9' := of_decide_eq_true h1
    have hhead : (slice s j 10).get? 0 = some c := by
      unfold slice
      rw [List.get?_take (by omega), List.get?_drop]
      simpa using hget
    cases hsl : slice s j 10 with
    | nil => rw [hsl] at hlen; simp at hlen
    | cons c' rest =>
      rw [hsl] at hhead
      simp at hhead
      exact ⟨c', rest, rfl, hhead ▸ hc.1, hhead ▸ hc.2⟩

/-- Case analysis of a successful phone-pattern match: an optional
alternative of the group, then the core at the position after it. -/
lemma matchPhoneAt_some {s : List Char} {i len : Nat}
    (h : matchPhoneAt s i = some len) :
    ∃ k, (k = 3 ∧ slice s i 3 = ['+', '9', '1'] ∨
          k = 2 ∧ slice s i 2 = ['9', '1'] ∨
          k = 1 ∧ slice s i 1 = ['0'] ∨ k = 0) ∧
      len = k + 10 ∧ phoneCoreAt s (i + k) = true := by
  unfold matchPhoneAt at h
  split_ifs at h with h1 h2 h3 h4
  · rcases band_true h1 with ⟨ha, hb⟩
    refine ⟨3, Or.inl ⟨rfl, by simpa using startsAt_eq ha⟩, ?_, hb⟩
    injection h with h'
    omega
  · rcases band_true h2 with ⟨ha, hb⟩
    refine ⟨2, Or.inr (Or.inl ⟨rfl, by simpa using startsAt_eq ha⟩), ?_, hb⟩
    injection h with h'
    omega
  · rcases band_true h3 with ⟨ha, hb⟩
    refine ⟨1, Or.inr (Or.inr (Or.inl ⟨rfl, by simpa using startsAt_eq ha⟩)),
      ?_, hb⟩
    injection h with h'
    omega
  · refine ⟨0, Or.inr (Or.inr (Or.inr rfl)), ?_, by simpa using h4⟩
    injection h with h'
    omega

/-- The strip is inert on a list whose head is none of `+`, `9`, `0`. -/
lemma stripCountryCode_eq_self {c : Char} {l : List Char}
    (h1 : c ≠ '+') (h2 : c ≠ '9') (h3 : c ≠ '0') :
    stripCountryCode (c :: l) = c :: l := by
  unfold stripCountryCode
  split <;> simp_all

/-- The strip is inert on a list starting `9x` with `x ≠ 1`. -/
lemma stripCountryCode_nine {r : Char} {l : List Char} (h : r ≠ '1') :
    stripCountryCode ('9' :: r :: l) = '9' :: r :: l := by
  unfold stripCountryCode
  split <;> simp_all

/-- Every cleaned phone candidate of a message is a run of exactly ten
digits whose first digit is between 6 and 9. -/
lemma cleanedPhones_shape {chars p : List Char} (h : p ∈ cleanedPhones chars) :
    p.length = 10 ∧ p.all Char.isDigit = true ∧
      ∃ c rest, p = c :: rest ∧ '6' ≤ c ∧ c ≤ '9' := by
  unfold cleanedPhones at h
  rcases List.mem_filter.mp h with ⟨hmem, hlen⟩
  have hlen10 : p.length = 10 := by simpa using hlen
  rcases List.mem_map.mp hmem with ⟨m, hm, hmp⟩
  rcases findAll_mem hm with ⟨i, len, hmatch, hslice⟩
  rcases matchPhoneAt_some hmatch with ⟨k, hk, hlen', hcore⟩
  rcases phoneCore_slice hcore with ⟨hl10, hdig, c, rest, hcr, hc1, hc2⟩
  have hsplit : m = slice chars i k ++ slice chars (i + k) 10 := by
    rw [hslice, hlen', slice_append]
  have hcplus : c ≠ '+' := by
    intro hEq
    rw [hEq] at hc1
    exact absurd hc1 (by decide)
  have hczero : c ≠ '0' := by
    intro hEq
    rw [hEq] at hc1
    exact absurd hc1 (by decide)
  have hp_eq_core : p = slice chars (i + k) 10 := by
    rcases hk with ⟨hk3, hsl⟩ | ⟨hk2, hsl⟩ | ⟨hk1, hsl⟩ | hk0
    · subst hk3
      rw [hsl] at hsplit
      rw [← hmp, hsplit]
      rfl
    · subst hk2
      rw [hsl] at hsplit
      rw [← hmp, hsplit]
      rfl
    · subst hk1
      rw [hsl] at hsplit
      rw [← hmp, hsplit]
      rfl
    · subst hk0
      have hm_core : m = slice chars (i + 0) 10 := by
        simpa [slice] using hsplit
      by_cases h9 : c = '9'
      · subst h9
        cases rest with
        | nil => rw [hcr] at hl10; simp at hl10
        | cons r rest2 =>
          by_cases hr1 : r = '1'
          · subst hr1
            rw [hm_core, hcr] at hmp
            simp [stripCountryCode] at hmp
            rw [← hmp] at hlen10
            rw [hcr] at hl10
            simp at hl10 hlen10
            omega
          · rw [hm_core, hcr] at hmp
            rw [stripCountryCode_nine hr1] at hmp
            rw [← hmp, ← hcr, ← hm_core, hm_core]
      · rw [hm_core, hcr] at hmp
        rw [stripCountryCode_eq_self hcplus h9 hczero] at hmp
        rw [← hmp, ← hcr, ← hm_core, hm_core]
  rw [hp_eq_core]
  exact ⟨hl10, hdig, c, rest, hcr, hc1, hc2⟩

/-! ### Claim theorems about phone extraction (C7) -/

/-- Counterexample to C7 as stated: the spec's Scenario A text
`+91 98765 43210` (digits separated by spaces) yields no phone candidate
at all — the pattern requires the ten digits to be contiguous. -/
theorem spaced_phone_cex :
    (extractFromMessage "+91 98765 43210").phone_numbers = [] ∧
      "9876543210" ∉ (extractFromMessage "+91 98765 43210").phone_numbers := by
  constructor
  · decide
  · decide

/-- C7 amended: every produced phone candidate is a contiguous run of
exactly ten digits whose first digit is 6–9 (the prefix-stripped form of a
match, kept only when ten digits remain); the contiguous form
`+919876543210` yields `9876543210`, while the spaced form of Scenario A
yields nothing. -/
theorem phone_candidates_amended :
    (∀ (msg p : String), p ∈ (extractFromMessage msg).phone_numbers →
      p.length = 10 ∧ p.toList.all Char.isDigit = true ∧
        ∃ c rest, p.toList = c :: rest ∧ '6' ≤ c ∧ c ≤ '9') ∧
      (extractFromMessage "+919876543210").phone_numbers = ["9876543210"] ∧
      (extractFromMessage "+91 98765 43210").phone_numbers = [] := by
  refine ⟨?_, by decide, by decide⟩
  intro msg p hp
  simp only [extractFromMessage] at hp
  rcases List.mem_map.mp hp with ⟨pl, hpl, hplp⟩
  have hpl' : pl ∈ cleanedPhones msg.toList := List.mem_dedup.mp hpl
  rcases cleanedPhones_shape hpl' with ⟨hl, hd, c, rest, hcr, h1, h2⟩
  subst hplp
  exact ⟨hl, hd, c, rest, hcr, h1, h2⟩

/-- Witness for the amended C7 at the contiguous number. -/
theorem phone_candidates_amended_witness :
    ("9876543210" : String) ∈
        (extractFromMessage "+919876543210").phone_numbers ∧
      ("9876543210" : String).length = 10 ∧
      ("9876543210" : String).toList.all Char.isDigit = true ∧
      ∃ c rest, ("9876543210" : String).toList = c :: rest ∧
        '6' ≤ c ∧ c ≤ '9' :=
  ⟨by decide,
   phone_candidates_amended.1 "+919876543210" "9876543210" (by decide)⟩

/-! ### Claim theorems about bank-account extraction (C8) -/

/-- What a successful greedy attempt of the `{9,18}` quantifier yields. -/
lemma bankTryLen_some {s : List Char} {i : Nat} :
    ∀ {k n : Nat}, bankTryLen s i k = some n →
      9 ≤ n ∧ n ≤ k ∧ digitsAt s i n = true := by
  intro k
  induction k with
  | zero => intro n h; simp [bankTryLen] at h
  | succ m ih =>
    intro n h
    simp only [bankTryLen] at h
    split_ifs at h with h1 h2
    · rcases band_true h2 with ⟨hd, _⟩
      injection h with h'
      subst h'
      exact ⟨by omega, le_refl _, hd⟩
    · rcases ih h with ⟨ha, hb, hc⟩
      exact ⟨ha, by omega, hc⟩

/-- What a successful bank-pattern match yields. -/
lemma matchBankAt_some {s : List Char} {i len : Nat}
    (h : matchBankAt s i = some len) :
    9 ≤ len ∧ len ≤ 18 ∧ digitsAt s i len = true := by
  unfold matchBankAt at h
  split_ifs at h with h1
  exact bankTryLen_some h

/-- Counterexample to C8 as stated: in the message `919876543210` the
only digit run carries the optional `91` country code, is classified as
the phone candidate `9876543210` after stripping, and is nevertheless
also emitted as a bank-account candidate (the source excludes only runs
literally equal to a cleaned phone candidate). -/
theorem bank_exclusion_cex :
    "9876543210" ∈ (extractFromMessage "919876543210").phone_numbers ∧
      "919876543210" ∈ (extractFromMessage "919876543210").bank_accounts ∧
      stripCountryCode "919876543210".toList = "9876543210".toList := by
  refine ⟨by decide, by decide, by decide⟩

/-- C8 amended: every produced bank-account candidate is a digit run of
length 11–18 and is distinct from every produced phone candidate (the
exclusion compares against the cleaned, prefix-stripped candidates, so a
run still carrying its prefix can appear in both roles, as in
`919876543210`); the 12-digit run of Scenario B is produced. -/
theorem bank_candidates_amended :
    (∀ (msg b : String), b ∈ (extractFromMessage msg).bank_accounts →
      11 ≤ b.length ∧ b.length ≤ 18 ∧ b.toList.all Char.isDigit = true ∧
        b ∉ (extractFromMessage msg).phone_numbers) ∧
      (extractFromMessage "123456789012").bank_accounts = ["123456789012"] ∧
      "919876543210" ∈ (extractFromMessage "919876543210").bank_accounts ∧
      "9876543210" ∈ (extractFromMessage "919876543210").phone_numbers := by
  refine ⟨?_, by decide, by decide, by decide⟩
  intro msg b hb
  have hbphone := hb
  simp only [extractFromMessage] at hb
  rcases List.mem_map.mp hb with ⟨bl, hbl, hblb⟩
  have hbl' := List.mem_dedup.mp hbl
  rcases List.mem_filter.mp hbl' with ⟨hmem, hcond⟩
  rcases band_true hcond with ⟨hnotin, hlen11⟩
  rcases findAll_mem hmem with ⟨i, len, hmatch, hslice⟩
  rcases matchBankAt_some hmatch with ⟨h9, h18, hdig⟩
  rcases digitsAt_eq hdig with ⟨hlen, hall⟩
  subst hblb
  have hbl_len : bl.length = len := by rw [hslice]; exact hlen
  have hlenb : (String.mk bl).length = bl.length := rfl
  have htl : (String.mk bl).toList = bl := rfl
  refine ⟨?_, ?_, ?_, ?_⟩
  · rw [hlenb]
    exact of_decide_eq_true hlen11
  · rw [hlenb, hbl_len]
    exact h18
  · rw [htl, hslice]
    exact hall
  · intro hmem2
    simp only [extractFromMessage] at hmem2
    rcases List.mem_map.mp hmem2 with ⟨pl, hpl, hplEq⟩
    have hpb : pl = bl := by
      have := congrArg String.toList hplEq
      simpa [String.toList] using this
    subst hpb
    have hin : pl ∈ cleanedPhones msg.toList := List.mem_dedup.mp hpl
    have hcont : (cleanedPhones msg.toList).contains pl = true :=
      List.elem_eq_true_of_mem hin
    simp [hcont] at hnotin
    exact hnotin hin

/-- Witness for the amended C8 at the prefixed digit run. -/
theorem bank_candidates_amended_witness :
    ("919876543210" : String) ∈
        (extractFromMessage "919876543210").bank_accounts ∧
      11 ≤ ("919876543210" : String).length ∧
      ("919876543210" : String).length ≤ 18 ∧
      ("919876543210" : String).toList.all Char.isDigit = true ∧
      ("919876543210" : String) ∉
        (extractFromMessage "919876543210").phone_numbers :=
  ⟨by decide,
   bank_candidates_amended.1 "919876543210" "919876543210" (by decide)⟩

/-! ### Claim theorems about UPI extraction (C6) -/

/-- The retention test C6 claims, following the spec's words: a token is
kept when its domain part — the segment after the `@` — matches an
allow-listed payment-provider handle suffix (here read generously as
substring containment within the domain part). -/
def specDomainAllowed (u : String) : Bool :=
  let dom := ((toLowerList u.toList).dropWhile fun c => c != '@').drop 1
  upiProviders.any fun b => hasSub b dom

/-- Counterexample to C6 as stated: the token `paytm@gmail` has domain
part `gmail`, which matches no allow-listed provider suffix, yet the
extractor keeps it as a payment-handle candidate — the source checks the
provider names against the whole token, not its domain part. -/
theorem upi_domain_cex :
    (extractFromMessage "paytm@gmail").upi_ids = ["paytm@gmail"] ∧
      ((toLowerList ("paytm@gmail" : String).toList).dropWhile
        fun c => c != '@').drop 1 = "gmail".toList ∧
      specDomainAllowed "paytm@gmail" = false :=
  ⟨by decide, by decide, by decide⟩

/-- C6 amended: a UPI-shaped token is kept exactly when some allow-listed
provider name occurs as a substring anywhere in the lowercased token
(local part included), not merely in its domain part; the Scenario C
handle `9876543210@paytm` is kept. -/
theorem upi_filter_amended :
    (∀ (msg u : String), u ∈ (extractFromMessage msg).upi_ids ↔
      (∃ m ∈ findAll matchUpiAt msg.toList, u = String.mk m) ∧
        upiProviders.any (fun b => hasSub b (toLowerList u.toList)) = true) ∧
      "9876543210@paytm" ∈
        (extractFromMessage "pay me at 9876543210@paytm").upi_ids := by
  constructor
  · intro msg u
    simp only [extractFromMessage]
    constructor
    · intro h
      rcases List.mem_map.mp h with ⟨m, hm, hmu⟩
      have hm' := List.mem_dedup.mp hm
      rcases List.mem_filter.mp hm' with ⟨hmem, hpred⟩
      subst hmu
      exact ⟨⟨m, hmem, rfl⟩, by simpa [String.toList] using hpred⟩
    · rintro ⟨⟨m, hmem, rfl⟩, hpred⟩
      apply List.mem_map.mpr
      refine ⟨m, List.mem_dedup.mpr (List.mem_filter.mpr ⟨hmem, ?_⟩), rfl⟩
      simpa [String.toList] using hpred
  · decide

/-! ### Claim theorem about intelligence aggregation (C9) -/

/-- Field view of the per-field set union. -/
lemma mergeIntel_get (a b : Intelligence) (k : IntelKey) :
    (mergeIntel a b).get k = (a.get k ++ b.get k).dedup := by
  cases k <;> rfl

/-- Every field of the empty bundle is empty. -/
lemma emptyIntel_get (k : IntelKey) : emptyIntel.get k = [] := by
  cases k <;> rfl

/-- Membership in the conversation-aggregation fold. -/
lemma foldl_merge_mem (texts : List String) (acc : Intelligence)
    (k : IntelKey) (x : String) :
    (x ∈ (texts.foldl (fun a t => mergeIntel a (extractFromMessage t))
        acc).get k) ↔
      x ∈ acc.get k ∨ ∃ t ∈ texts, x ∈ (extractFromMessage t).get k := by
  induction texts generalizing acc with
  | nil => simp
  | cons t ts ih =>
    simp only [List.foldl_cons]
    rw [ih, mergeIntel_get]
    simp only [List.mem_dedup, List.mem_append, List.mem_cons]
    constructor
    · rintro ((h | h) | ⟨t', ht', hx⟩)
      · exact Or.inl h
      · exact Or.inr ⟨t, Or.inl rfl, h⟩
      · exact Or.inr ⟨t', Or.inr ht', hx⟩
    · rintro (h | ⟨t', (rfl | ht'), hx⟩)
      · exact Or.inl (Or.inl h)
      · exact Or.inl (Or.inr hx)
      · exact Or.inr ⟨t', ht', hx⟩

/-- C9.  Intelligence accumulation is per-field set union: the session
merge adds the new bundle's entries and removes or duplicates nothing;
the conversation-level aggregate contains exactly the entries extracted
from some message, so it is invariant under permutation of the messages
and unchanged when an already-processed text is processed again. -/
theorem intelligence_union :
    (∀ (s : Session) (new : Intelligence) (k : IntelKey) (x : String),
      (x ∈ (updateIntelligence s new).extracted_intelligence.get k) ↔
        x ∈ s.extracted_intelligence.get k ∨ x ∈ new.get k) ∧
    (∀ (s : Session) (new : Intelligence) (k : IntelKey),
      ((updateIntelligence s new).extracted_intelligence.get k).Nodup) ∧
    (∀ (texts : List String) (k : IntelKey) (x : String),
      x ∈ (extractFromConversation texts).get k ↔
        ∃ t ∈ texts, x ∈ (extractFromMessage t).get k) ∧
    (∀ (texts texts' : List String) (k : IntelKey), texts.Perm texts' →
      ((extractFromConversation texts).get k).toFinset =
        ((extractFromConversation texts').get k).toFinset) ∧
    (∀ (texts : List String) (t : String) (k : IntelKey), t ∈ texts →
      ((extractFromConversation (texts ++ [t])).get k).toFinset =
        ((extractFromConversation texts).get k).toFinset) := by
  have hconv : ∀ (texts : List String) (k : IntelKey) (x : String),
      x ∈ (extractFromConversation texts).get k ↔
        ∃ t ∈ texts, x ∈ (extractFromMessage t).get k := by
    intro texts k x
    unfold extractFromConversation
    rw [foldl_merge_mem]
    simp [emptyIntel_get]
  refine ⟨?_, ?_, hconv, ?_, ?_⟩
  · intro s new k x
    simp [updateIntelligence, mergeIntel_get, List.mem_dedup]
  · intro s new k
    simp only [updateIntelligence, mergeIntel_get]
    exact List.nodup_dedup _
  · intro texts texts' k hp
    ext x
    simp only [List.mem_toFinset, hconv]
    constructor
    · rintro ⟨t, ht, hx⟩
      exact ⟨t, hp.subset ht, hx⟩
    · rintro ⟨t, ht, hx⟩
      exact ⟨t, hp.symm.subset ht, hx⟩
  · intro texts t k ht
    ext x
    simp only [List.mem_toFinset, hconv, List.mem_append, List.mem_singleton]
    constructor
    · rintro ⟨t', (ht' | rfl), hx⟩
      · exact ⟨t', ht', hx⟩
      · exact ⟨t', ht, hx⟩
    · rintro ⟨t', ht', hx⟩
      exact ⟨t', Or.inl ht', hx⟩

/-- Witness for C9: a two-message conversation permuted, and one of its
texts processed a second time. -/
theorem intelligence_union_witness :
    (["9876543210@paytm", "ok"] : List String).Perm ["ok", "9876543210@paytm"] ∧
      ((extractFromConversation
          ["9876543210@paytm", "ok"]).get IntelKey.upi_ids).toFinset =
        ((extractFromConversation
          ["ok", "9876543210@paytm"]).get IntelKey.upi_ids).toFinset ∧
      ("ok" : String) ∈ (["9876543210@paytm", "ok"] : List String) ∧
      ((extractFromConversation
          (["9876543210@paytm", "ok"] ++ ["ok"])).get IntelKey.upi_ids).toFinset =
        ((extractFromConversation
          ["9876543210@paytm", "ok"]).get IntelKey.upi_ids).toFinset :=
  ⟨List.Perm.swap "ok" "9876543210@paytm" [],
   intelligence_union.2.2.2.1 _ _ _ (List.Perm.swap "ok" "9876543210@paytm" []),
   by decide,
   intelligence_union.2.2.2.2 _ _ _ (by decide)⟩

end Honeypot
